import Mathlib

/-!
# Verification of the SpiderBot web crawler core (src/crawler.py)

A shallow embedding of the crawl engine of `crawler.py`:

* URL parsing/joining helpers model the behaviour of `urllib.parse.urlparse`
  and `urllib.parse.urljoin` on the URL shapes the crawler manipulates
  (`scheme://host/path`); Python string primitives (`strip`, `startswith`,
  `int()`, `float()`) are modelled by explicit character-list functions so
  that everything evaluates inside the kernel.
* `crawl_page` is translated from `WebCrawler.crawl_page`; the network and the
  HTML parser are abstracted into a fetch oracle `fetch : String → FetchResult`
  that yields either a transport failure or a status code together with the
  `href` attributes of the page's anchors in document order.
* The concurrent worker pool is a small-step transition relation `Step` over a
  `Crawler` state; each worker is a program counter (`WPhase`) marking the
  points of `WebCrawler.worker` between its atomic sections (queue operations
  and the `visited_lock` critical sections).
* A single worker thread is also given as a deterministic fuel-indexed
  interpreter `workerRun`, used for the sequential claims.
* `start_crawler`, `stop_crawler`, `clear_storage` and `load_urls` are
  translated directly from the corresponding methods.

UI-only effects (table rendering, stats labels other than the status text) are
out of the model; the log is kept as a list of message strings, the CSV storage
file as an optional list of `(url, status)` rows (`none` = file absent;
timestamps, which are wall-clock strings in the code, are omitted).
-/

namespace SpiderBot

/-! ## Python string primitives on character lists -/

/-- Characters of Python `s.strip()`: drop whitespace at both ends. -/
def stripL (l : List Char) : List Char :=
  ((l.dropWhile Char.isWhitespace).reverse.dropWhile Char.isWhitespace).reverse

/-- Model of Python `s.strip()`. -/
def pyStrip (s : String) : String :=
  ⟨stripL s.data⟩

/-- Model of Python `s.startswith(pre)`. -/
def strStartsWith (s pre : String) : Bool :=
  pre.data.isPrefixOf s.data

/-- Value of a digit string, most significant first. -/
def digitsVal (l : List Char) : ℕ :=
  l.foldl (fun a c => 10 * a + (c.toNat - 48)) 0

/-- Parse a non-empty all-digit character list; `none` otherwise. -/
def parseDigits? (l : List Char) : Option ℕ :=
  if l ≠ [] ∧ l.all Char.isDigit then some (digitsVal l) else none

/-- Split a character list at every occurrence of `sep` (Python
`s.split(sep)` for a one-character separator). -/
def splitOnChar (sep : Char) : List Char → List (List Char)
  | [] => [[]]
  | c :: cs =>
    if c = sep then [] :: splitOnChar sep cs
    else
      match splitOnChar sep cs with
      | [] => [[c]]
      | a :: as => (c :: a) :: as

/-- Model of Python `int(s)`: optional sign, then at least one digit;
`none` models a `ValueError`. -/
def pyInt (s : String) : Option Int :=
  match stripL s.data with
  | '-' :: r => (parseDigits? r).map fun n => -(n : Int)
  | '+' :: r => (parseDigits? r).map fun n => (n : Int)
  | r => (parseDigits? r).map fun n => (n : Int)

/-- Model of Python `float(s)` on plain decimal literals (optional sign,
digits, optional `.digits`).  The value is returned as a mantissa/scale pair:
`some (m, k)` denotes the number `m / 10 ^ k` (so the value is negative
exactly when `m < 0`); `none` models a `ValueError`. -/
def pyFloat (s : String) : Option (Int × ℕ) :=
  let t := stripL s.data
  let p : Int × List Char :=
    match t with
    | '-' :: r => (-1, r)
    | '+' :: r => (1, r)
    | r => (1, r)
  match splitOnChar '.' p.2 with
  | [ip] => (parseDigits? ip).map fun n => (p.1 * n, 0)
  | [ip, fp] =>
    if ip = [] ∧ fp = [] then none
    else
      match (if ip = [] then some 0 else parseDigits? ip),
            (if fp = [] then some 0 else parseDigits? fp) with
      | some n, some f => some (p.1 * ((n : Int) * 10 ^ fp.length + f), fp.length)
      | _, _ => none
  | _ => none

/-- Outcome of `time.sleep(float(entry))` in the worker loop: `some (m, k)`
(the delay `m / 10 ^ k` actually slept) when the entry parses to a
non-negative delay; `none` when either `float()` raises (non-numeric entry) or
`time.sleep` raises (negative delay) — both exceptions land in the worker's
catch-all handler. -/
def sleepEval (entry : String) : Option (Int × ℕ) :=
  match pyFloat entry with
  | none => none
  | some d => if d.1 < 0 then none else some d

/-! ## URL helpers (model of `urllib.parse` on `scheme://host/...` URLs) -/

/-- Split a character list at the first `"://"`. -/
def schemeSplitL : List Char → Option (List Char × List Char)
  | ':' :: '/' :: '/' :: rest => some ([], rest)
  | c :: cs => (schemeSplitL cs).map fun p => (c :: p.1, p.2)
  | [] => none

/-- Split a URL string at the first `"://"`: returns `(scheme, remainder)`, or
`none` when the string has no `"://"`.  Models the scheme/netloc split that
`urllib.parse.urlparse` performs on the absolute HTTP(S) URLs the crawler
handles (a URL without `"://"` has no netloc and, for the crawler's filter, an
irrelevant scheme). -/
def schemeSplit (s : String) : Option (String × String) :=
  (schemeSplitL s.data).map fun p => (⟨p.1⟩, ⟨p.2⟩)

/-- Model of `urlparse(s).scheme` (lower-cased by `urlparse`). -/
def urlScheme (s : String) : String :=
  match schemeSplit s with
  | some (sch, _) => ⟨sch.data.map Char.toLower⟩
  | none => ""

/-- The netloc is the remainder up to the first `/`, `?` or `#`. -/
def netlocOf (rest : String) : String :=
  ⟨rest.data.takeWhile fun c => !(c == '/' || c == '?' || c == '#')⟩

/-- Model of `urlparse(s).netloc`. -/
def urlNetloc (s : String) : String :=
  match schemeSplit s with
  | some (_, rest) => netlocOf rest
  | none => ""

/-- Directory prefix of a path: everything up to and including the last `/`
(`"/"` when the path has none). -/
def dirOf (path : String) : String :=
  let d := (path.data.reverse.dropWhile (fun c => c != '/')).reverse
  if d = [] then "/" else ⟨d⟩

/-- Model of `urllib.parse.urljoin(base, href)` on the crawler's cases:
an absolute `href` is returned unchanged; a protocol-relative `//...` href
takes the base's scheme; a root-relative `/...` href replaces the base's path;
otherwise the href is appended to the base's directory (no dot-segment
normalisation — the crawler's domain/scheme filter only inspects the scheme
and netloc of the result, which this model reproduces). -/
def urljoin (base href : String) : String :=
  if (schemeSplit href).isSome then href
  else if strStartsWith href "//" then urlScheme base ++ ":" ++ href
  else
    match schemeSplit base with
    | none => href
    | some (sch, rest) =>
      let host := netlocOf rest
      let path : String := ⟨rest.data.drop host.data.length⟩
      if href = "" then base
      else if strStartsWith href "/" then sch ++ "://" ++ host ++ href
      else sch ++ "://" ++ host ++ dirOf path ++ href

/-! ## Fetch oracle and `crawl_page` -/

/-- Result of `requests.get` combined with BeautifulSoup anchor extraction:
either a transport failure (connection/DNS/timeout error raised by
`requests.get`) or a status code with the page's anchor `href` attributes in
document order. -/
inductive FetchResult where
  | err : FetchResult
  | ok (status : ℕ) (hrefs : List String) : FetchResult
deriving DecidableEq, Repr

/-- Translation of `WebCrawler.crawl_page` (crawler.py lines 163–185).
Returns `((links, status), logLines)`: the link/status pair the Python method
returns, plus the log lines it emits (the `except` branch logs the error).
A transport failure yields `(([], 0), [error line])`; a non-200 status returns
`([], status)` without extracting links; on a 200, each `href` is joined
against the page URL and kept when it passes the domain restriction (netloc of
the joined URL equals the fetched page's netloc, when `restrict` is set) and
has an `http`/`https` scheme. -/
def crawl_page (restrict : Bool) (fetch : String → FetchResult) (url : String) :
    (List String × ℕ) × List String :=
  match fetch url with
  | .err => (([], 0), ["Error crawling " ++ url])
  | .ok status hrefs =>
    if status ≠ 200 then (([], status), [])
    else
      let base_domain : Option String := if restrict then some (urlNetloc url) else none
      let links := hrefs.filterMap fun href =>
        let full_url := urljoin url href
        if (base_domain.isNone ∨ urlNetloc full_url = base_domain.getD "")
            ∧ (urlScheme full_url = "http" ∨ urlScheme full_url = "https") then
          some full_url
        else none
      ((links, status), [])

/-! ## Crawler state -/

/-- Program counter of one worker thread, marking the points of
`WebCrawler.worker` (crawler.py lines 187–214) between its atomic sections:

* `idle` — at the top of the loop, about to test `self.crawler_running`;
* `checked` — the `while` test passed, about to call `url_queue.get`;
* `popped url` — holds a dequeued URL, about to enter the `visited_lock`
  check-and-add section;
* `working url` — the check-and-add admitted `url`; about to fetch
  (`crawl_page`) and record (`save_url`);
* `pushing url links` — fetch done and record saved; about to push the
  extracted `links` under `visited_lock`;
* `sleeping` — in `time.sleep` (or in the catch-all handler), about to loop;
* `exited` — the thread returned (flag observed false, or `queue.Empty`). -/
inductive WPhase where
  | idle : WPhase
  | checked : WPhase
  | popped (url : String) : WPhase
  | working (url : String) : WPhase
  | pushing (url : String) (links : List String) : WPhase
  | sleeping : WPhase
  | exited : WPhase
deriving DecidableEq, Repr

/-- State of the `WebCrawler` object, restricted to the crawl engine.

* `url_queue`, `visited_urls`, `crawler_running` are the attributes of the
  same names (the visited set is kept as a duplicate-free list in insertion
  order);
* `current_status` is the status `StringVar` shown by `stats()`;
* `storage` models the CSV file: `none` when the file does not exist,
  otherwise the `(url, status)` rows in order (timestamps omitted);
* `records` is the observation history of `save_url` calls since the current
  session started (the sequence of CrawlRecords produced);
* `logMsgs` is the history of `log` calls (most recent last);
* `workers` holds one `WPhase` per spawned worker thread;
* `start_url_entry`, `max_threads_entry`, `politeness_delay_entry` are the
  current texts of the corresponding input fields (mutable mid-session);
* `restrict_domain` is the "Stay on Domain" checkbox;
* `slept` is the observation history of the worker's `time.sleep` line:
  one entry per execution, `some d` for a completed sleep (`sleepEval`),
  `none` when the line raised (caught by the worker's handler). -/
structure Crawler where
  url_queue : List String
  visited_urls : List String
  crawler_running : Bool
  current_status : String
  storage : Option (List (String × ℕ))
  records : List (String × ℕ)
  logMsgs : List String
  workers : List WPhase
  start_url_entry : String
  max_threads_entry : String
  politeness_delay_entry : String
  restrict_domain : Bool
  slept : List (Option (Int × ℕ))
deriving DecidableEq, Repr

/-- Insert into the visited set (Python `set.add`): no-op when present. -/
def addVisited (v : List String) (u : String) : List String :=
  if u ∈ v then v else v ++ [u]

/-- `load_all()` of the Persistence Sink: the stored rows, empty when the
storage file does not exist. -/
def load_all (storage : Option (List (String × ℕ))) : List (String × ℕ) :=
  storage.getD []

/-- Translation of `WebCrawler.save_url` (lines 216–232): append the row to
the CSV file (creating it, with its header, when absent), surface the record,
and log the crawl line. -/
def save_url (url : String) (status : ℕ) (c : Crawler) : Crawler :=
  { c with
    storage := some (load_all c.storage ++ [(url, status)])
    records := c.records ++ [(url, status)]
    logMsgs := c.logMsgs ++ ["Crawled: " ++ url] }

/-- Translation of `WebCrawler.load_urls` (lines 234–248): when the storage
file exists, add each stored URL to the visited set (header row skipped,
modelled by `storage` holding only data rows) and log the count. -/
def load_urls (c : Crawler) : Crawler :=
  match c.storage with
  | none => c
  | some rows =>
    { c with
      visited_urls := rows.foldl (fun v r => addVisited v r.1) c.visited_urls
      logMsgs := c.logMsgs ++ ["Loaded URLs from storage"] }

/-- The validation failures of `start_crawler`, which the code surfaces as
message boxes followed by an early return (the spec's `ValidationError`). -/
inductive StartError where
  | alreadyRunning : StartError
  | invalidUrl : StartError
  | invalidThreads : StartError
  | invalidDelay : StartError
deriving DecidableEq, Repr

/-- Translation of `WebCrawler.start_crawler` (lines 250–296).  Returns the
error raised (if any) together with the resulting state: a validation failure
leaves the state unchanged; on success the running flag is set, the status
becomes `"Running"`, the Frontier Queue is cleared and re-seeded with the
(stripped) seed, prior records are loaded into the visited set, and
`max_threads` workers are spawned (the session's record history starts
empty). -/
def start_crawler (c : Crawler) : Option StartError × Crawler :=
  if c.crawler_running then (some .alreadyRunning, c)
  else
    let start_url := pyStrip c.start_url_entry
    if ¬ (strStartsWith start_url "http://" ∨ strStartsWith start_url "https://") then
      (some .invalidUrl, c)
    else
      match pyInt c.max_threads_entry with
      | none => (some .invalidThreads, c)
      | some max_threads =>
        if ¬ (1 ≤ max_threads ∧ max_threads ≤ 16) then (some .invalidThreads, c)
        else
          match pyFloat c.politeness_delay_entry with
          | none => (some .invalidDelay, c)
          | some delay =>
            if delay.1 < 0 then (some .invalidDelay, c)
            else
              let c₁ := { c with
                crawler_running := true
                current_status := "Running"
                url_queue := [start_url]
                records := [] }
              let c₂ := load_urls c₁
              (none, { c₂ with
                workers := List.replicate max_threads.toNat .idle
                logMsgs := c₂.logMsgs ++ ["Crawler started successfully"] })

/-- Translation of `WebCrawler.stop_crawler` (lines 298–303): when running,
clear the flag and set the status to `"Stopped"`; otherwise do nothing. -/
def stop_crawler (c : Crawler) : Crawler :=
  if c.crawler_running then
    { c with
      crawler_running := false
      current_status := "Stopped"
      logMsgs := c.logMsgs ++ ["Crawler stopping..."] }
  else c

/-- Translation of `WebCrawler.clear_storage` (lines 305–317): after the
confirmation dialog (argument `confirm`), delete the storage file, clear the
visited set and reset the stats display (status back to `"Idle"` via
`setup_stats`).  The method performs no check of `crawler_running`. -/
def clear_storage (confirm : Bool) (c : Crawler) : Crawler :=
  if confirm then
    { c with
      storage := none
      visited_urls := []
      logMsgs := c.logMsgs ++ ["Storage cleared successfully"]
      current_status := "Idle" }
  else c

/-! ## Single worker thread, deterministic interpreter

`workerRun fetch entries fuel k c` runs one worker thread
(`WebCrawler.worker`, lines 187–214) alone for up to `fuel` loop iterations.
The mutable delay entry field is modelled by the stream `entries`: the `n`-th
execution of the `time.sleep(float(self.politeness_delay_entry.get()))` line
reads `entries n` (so `entries` records the field's text at each moment it is
read); `k` is the number of reads already performed. -/

/-- One full (non-discarded) iteration of the worker loop body on `url`:
check-and-add `url` to the visited set, fetch and parse it (`crawl_page`),
record it (`save_url`), push each extracted link not already visited, and
execute the sleep line on the current delay-entry text (whose failure is
caught). -/
def workerIter (fetch : String → FetchResult) (entry : String) (url : String)
    (c : Crawler) : Crawler :=
  let c₁ := { c with visited_urls := addVisited c.visited_urls url }
  let r := crawl_page c₁.restrict_domain fetch url
  let c₂ := save_url url r.1.2 { c₁ with logMsgs := c₁.logMsgs ++ r.2 }
  let c₃ := { c₂ with
    url_queue := c₂.url_queue ++ r.1.1.filter (fun l => l ∉ c₂.visited_urls) }
  { c₃ with slept := c₃.slept ++ [sleepEval entry] }

/-- The worker loop, one thread, `fuel` bounding the number of iterations:
exit when the running flag is clear or the queue is empty (`queue.Empty`);
discard an already-visited URL without fetching; otherwise run `workerIter`
and continue with the next delay-entry read. -/
def workerRun (fetch : String → FetchResult) (entries : ℕ → String) :
    ℕ → ℕ → Crawler → Crawler
  | 0, _, c => c
  | fuel + 1, k, c =>
    if c.crawler_running = false then c
    else
      match c.url_queue with
      | [] => c
      | url :: rest =>
        let c₁ := { c with url_queue := rest }
        if url ∈ c₁.visited_urls then workerRun fetch entries fuel k c₁
        else workerRun fetch entries fuel (k + 1) (workerIter fetch (entries k) url c₁)

/-! ## Concurrent worker pool, small-step semantics -/

/-- Effect of worker `i` performing the fetch-and-record section on `url`:
`crawl_page` (appending its log lines) followed by `save_url`, the worker
moving on to push the extracted links. -/
def fetchRecord (fetch : String → FetchResult) (i : ℕ) (url : String)
    (c : Crawler) : Crawler :=
  let r := crawl_page c.restrict_domain fetch url
  { save_url url r.1.2 { c with logMsgs := c.logMsgs ++ r.2 } with
    workers := c.workers.set i (.pushing url r.1.1) }

/-- Small-step transition relation of the worker pool: one worker advances
past one atomic section of `WebCrawler.worker`.  The `visited_lock` sections
(`skip_visited`/`claim` and `push_links`) and the queue operations are single
steps; everything else interleaves freely. -/
inductive Step (fetch : String → FetchResult) : Crawler → Crawler → Prop
  | check (i : ℕ) (c : Crawler) :
      c.workers.get? i = some .idle →
      c.crawler_running = true →
      Step fetch c { c with workers := c.workers.set i .checked }
  | exit_flag (i : ℕ) (c : Crawler) :
      c.workers.get? i = some .idle →
      c.crawler_running = false →
      Step fetch c { c with workers := c.workers.set i .exited }
  | exit_empty (i : ℕ) (c : Crawler) :
      c.workers.get? i = some .checked →
      c.url_queue = [] →
      Step fetch c { c with workers := c.workers.set i .exited }
  | pop (i : ℕ) (c : Crawler) (url : String) (rest : List String) :
      c.workers.get? i = some .checked →
      c.url_queue = url :: rest →
      Step fetch c { c with url_queue := rest, workers := c.workers.set i (.popped url) }
  | skip_visited (i : ℕ) (c : Crawler) (url : String) :
      c.workers.get? i = some (.popped url) →
      url ∈ c.visited_urls →
      Step fetch c { c with workers := c.workers.set i .idle }
  | claim (i : ℕ) (c : Crawler) (url : String) :
      c.workers.get? i = some (.popped url) →
      url ∉ c.visited_urls →
      Step fetch c { c with
        visited_urls := addVisited c.visited_urls url
        workers := c.workers.set i (.working url) }
  | fetch_record (i : ℕ) (c : Crawler) (url : String) :
      c.workers.get? i = some (.working url) →
      Step fetch c (fetchRecord fetch i url c)
  | push_links (i : ℕ) (c : Crawler) (url : String) (links : List String) :
      c.workers.get? i = some (.pushing url links) →
      Step fetch c { c with
        url_queue := c.url_queue ++ links.filter (fun l => l ∉ c.visited_urls)
        workers := c.workers.set i .sleeping }
  | wake (i : ℕ) (c : Crawler) :
      c.workers.get? i = some .sleeping →
      Step fetch c { c with workers := c.workers.set i .idle }

/-- States reachable from `c₀` by the worker pool. -/
def Reach (fetch : String → FetchResult) : Crawler → Crawler → Prop :=
  Relation.ReflTransGen (Step fetch)

/-- The thread-count validation of `start_crawler` as a single evaluation:
`some n` when the entry parses to an in-range count `n`. -/
def threadsEval (entry : String) : Option Int :=
  match pyInt entry with
  | none => none
  | some n => if 1 ≤ n ∧ n ≤ 16 then some n else none

/-- The conjunction of the four validation checks of `start_crawler`
(not already running; `http(s)` seed; thread count parsing into `[1,16]`;
delay parsing non-negative — the latter exactly `sleepEval`). -/
def validStart (c : Crawler) : Prop :=
  c.crawler_running = false ∧
  (strStartsWith (pyStrip c.start_url_entry) "http://" ∨
    strStartsWith (pyStrip c.start_url_entry) "https://") ∧
  (threadsEval c.max_threads_entry).isSome ∧
  (sleepEval c.politeness_delay_entry).isSome

instance (c : Crawler) : Decidable (validStart c) := by
  unfold validStart; infer_instance

/-! ## Invariants and measures used in the pool analysis -/

/-- URLs of the CrawlRecords produced so far, in emission order. -/
def recUrls (c : Crawler) : List String :=
  c.records.map Prod.fst

/-- Invariant tying the record history, the in-flight workers and the
Visited Set together: record URLs are pairwise distinct and all visited;
a worker whose URL was admitted by check-and-add (`working`) holds a URL that
is visited and not yet recorded; and no two workers hold the same admitted
URL. -/
def RecInv (c : Crawler) : Prop :=
  (recUrls c).Nodup ∧
  (∀ u ∈ recUrls c, u ∈ c.visited_urls) ∧
  (∀ i u, c.workers.get? i = some (.working u) →
    u ∈ c.visited_urls ∧ u ∉ recUrls c) ∧
  (∀ i j u, i ≠ j → c.workers.get? i = some (.working u) →
    c.workers.get? j ≠ some (.working u))

/-- URLs a worker phase holds on-domain: a popped/admitted URL must be on the
given host, and extracted links waiting to be pushed must all be, too. -/
def phaseUrlsOk (host : String) : WPhase → Prop
  | .popped u => urlNetloc u = host
  | .working u => urlNetloc u = host
  | .pushing u links => urlNetloc u = host ∧ ∀ l ∈ links, urlNetloc l = host
  | _ => True

/-- Domain-restriction invariant: the checkbox is set, every queued URL is on
`host`, and every URL a worker holds is on `host`. -/
def DomInv (host : String) (c : Crawler) : Prop :=
  c.restrict_domain = true ∧
  (∀ u ∈ c.url_queue, urlNetloc u = host) ∧
  (∀ p ∈ c.workers, phaseUrlsOk host p)

/-- Remaining-work measure of one worker phase once the running flag is
clear: each transition of a stopped pool strictly decreases it, so it bounds
the number of steps the worker can still take. -/
def phMeasure : WPhase → ℕ
  | .exited => 0
  | .idle => 1
  | .sleeping => 2
  | .pushing _ _ => 3
  | .working _ => 4
  | .popped _ => 5
  | .checked => 6

/-- Remaining-work measure of the whole pool. -/
def wMeasure (c : Crawler) : ℕ :=
  (c.workers.map phMeasure).sum

/-- Weight 1 for a worker that may still produce one CrawlRecord (it already
passed the `while` test, or holds a popped or admitted URL), 0 otherwise. -/
def pendWeight : WPhase → ℕ
  | .checked => 1
  | .popped _ => 1
  | .working _ => 1
  | _ => 0

/-- Number of workers that may still produce a CrawlRecord. -/
def pendingCount (c : Crawler) : ℕ :=
  (c.workers.map pendWeight).sum

/-! ## Example states and oracles (used by concrete instantiations) -/

/-- A freshly initialised crawler (entries at validated values). -/
def ex0 : Crawler :=
  { url_queue := []
    visited_urls := []
    crawler_running := false
    current_status := "Idle"
    storage := none
    records := []
    logMsgs := []
    workers := []
    start_url_entry := "https://a.com"
    max_threads_entry := "2"
    politeness_delay_entry := "0"
    restrict_domain := true
    slept := [] }

/-- A mid-session crawler: running, one URL visited and stored, one pending. -/
def exRunning : Crawler :=
  { ex0 with
    crawler_running := true
    current_status := "Running"
    url_queue := ["https://a.com/pending"]
    visited_urls := ["https://a.com"]
    storage := some [("https://a.com", 200)]
    workers := [.idle] }

/-- A running single-worker crawler whose queue holds one unvisited URL. -/
def exQ1 : Crawler :=
  { ex0 with
    crawler_running := true
    current_status := "Running"
    url_queue := ["https://a.com"] }

/-- A running crawler whose queue holds two unvisited URLs. -/
def exQ2 : Crawler :=
  { ex0 with
    crawler_running := true
    current_status := "Running"
    url_queue := ["https://a.com/e", "https://a.com/b"] }

/-- Mock fetcher: every URL answers with HTTP 500 and one anchor. -/
def fetch500 : String → FetchResult :=
  fun _ => .ok 500 ["https://a.com/l1"]

/-- Mock fetcher: `https://a.com/e` raises a connection error, everything
else answers 200 with no anchors. -/
def fetchErr : String → FetchResult :=
  fun u => if u = "https://a.com/e" then .err else .ok 200 []

/-- Mock fetcher: every URL answers 200 with no anchors. -/
def fetch200 : String → FetchResult :=
  fun _ => .ok 200 []

/-- Mock fetcher: every URL answers with HTTP 206 and one anchor. -/
def fetch206 : String → FetchResult :=
  fun _ => .ok 206 ["https://a.com/x"]

/-- Delay-entry stream: constantly `"0"`. -/
def entries0 : ℕ → String :=
  fun _ => "0"

/-- Delay-entry stream: non-numeric at the first read, `"0.5"` after —
models the user typing garbage into the delay field and then fixing it. -/
def entriesBad : ℕ → String :=
  fun n => if n = 0 then "oops" else "0.5"

/-- The state right after a successful `start_crawler` on `ex0`. -/
def ex0Started : Crawler :=
  (start_crawler ex0).2

/-- A stopped pool with one worker still mid-flight (about to pop). -/
def exStopped : Crawler :=
  { exRunning with crawler_running := false, workers := [.checked, .idle] }

/-- An unrestricted session whose single worker is about to push an
off-domain link it extracted. -/
def exPush : Crawler :=
  { ex0 with
    crawler_running := true
    restrict_domain := false
    workers := [.pushing "https://a.com" ["https://b.com/page"]] }

/-! ## Helper lemmas -/

theorem mem_addVisited {v : List String} {u w : String} (h : u ∈ v) :
    u ∈ addVisited v w := by
  unfold addVisited; split
  · exact h
  · exact List.mem_append_left _ h

theorem self_mem_addVisited (v : List String) (u : String) : u ∈ addVisited v u := by
  unfold addVisited; split
  · assumption
  · simp

theorem mem_foldl_addVisited {u : String} (rows : List (String × ℕ))
    (v : List String) (h : u ∈ v) :
    u ∈ rows.foldl (fun v r => addVisited v r.1) v := by
  induction rows generalizing v with
  | nil => exact h
  | cons r rs ih => exact ih _ (mem_addVisited h)

theorem load_urls_queue (c : Crawler) : (load_urls c).url_queue = c.url_queue := by
  unfold load_urls; cases hs : c.storage <;> simp

theorem load_urls_running (c : Crawler) :
    (load_urls c).crawler_running = c.crawler_running := by
  unfold load_urls; cases hs : c.storage <;> simp

theorem load_urls_status (c : Crawler) :
    (load_urls c).current_status = c.current_status := by
  unfold load_urls; cases hs : c.storage <;> simp

theorem load_urls_records (c : Crawler) : (load_urls c).records = c.records := by
  unfold load_urls; cases hs : c.storage <;> simp

theorem load_urls_workers (c : Crawler) : (load_urls c).workers = c.workers := by
  unfold load_urls; cases hs : c.storage <;> simp

theorem load_urls_restrict (c : Crawler) :
    (load_urls c).restrict_domain = c.restrict_domain := by
  unfold load_urls; cases hs : c.storage <;> simp

theorem load_urls_visited (c : Crawler) {u : String} (h : u ∈ c.visited_urls) :
    u ∈ (load_urls c).visited_urls := by
  unfold load_urls
  cases hs : c.storage with
  | none => exact h
  | some rows => exact mem_foldl_addVisited rows _ h

/-- Branch analysis of `start_crawler`: a failed validation returns an error
and the state unchanged. -/
theorem start_crawler_fail {c : Crawler} (h : ¬ validStart c) :
    (start_crawler c).1.isSome ∧ (start_crawler c).2 = c := by
  unfold validStart at h
  unfold start_crawler
  by_cases hr : c.crawler_running
  · simp [hr]
  · by_cases hu : strStartsWith (pyStrip c.start_url_entry) "http://" ∨
        strStartsWith (pyStrip c.start_url_entry) "https://"
    · cases hn : pyInt c.max_threads_entry with
      | none => rcases hu with h1 | h1 <;> simp [hr, h1, hn]
      | some n =>
        by_cases hrange : 1 ≤ n ∧ n ≤ 16
        · cases hd : pyFloat c.politeness_delay_entry with
          | none =>
            rcases hu with h1 | h1 <;> simp [hr, h1, hn, hrange.1, hrange.2, hd]
          | some d =>
            by_cases hneg : d.1 < 0
            · rcases hu with h1 | h1 <;>
                simp [hr, h1, hn, hrange.1, hrange.2, hd, hneg]
            · exact absurd ⟨by simpa using hr, hu,
                by simp [threadsEval, hn, hrange.1, hrange.2],
                by simp [sleepEval, hd, hneg]⟩ h
        · rcases hu with h1 | h1 <;> simp [hr, h1, hn, hrange]
    · rw [not_or] at hu
      obtain ⟨h1, h2⟩ := hu
      simp only [Bool.not_eq_true] at h1 h2
      simp [hr, h1, h2]

/-- Branch analysis of `start_crawler`: a passing validation starts the
session — flag set, status `"Running"`, queue re-seeded, visited set kept
(and extended from storage), exactly `n` workers spawned, record history
reset. -/
theorem start_crawler_ok {c : Crawler} {n : Int} (h : validStart c)
    (hn : threadsEval c.max_threads_entry = some n) :
    (start_crawler c).1 = none ∧
    (start_crawler c).2.crawler_running = true ∧
    (start_crawler c).2.current_status = "Running" ∧
    (start_crawler c).2.url_queue = [pyStrip c.start_url_entry] ∧
    (start_crawler c).2.workers = List.replicate n.toNat WPhase.idle ∧
    (start_crawler c).2.records = [] ∧
    (∀ u ∈ c.visited_urls, u ∈ (start_crawler c).2.visited_urls) ∧
    (start_crawler c).2.restrict_domain = c.restrict_domain := by
  obtain ⟨hr, hu, -, hd⟩ := h
  unfold threadsEval at hn
  unfold start_crawler
  cases hpi : pyInt c.max_threads_entry with
  | none => rw [hpi] at hn; exact absurd hn (by simp)
  | some m =>
    rw [hpi] at hn
    by_cases hrange : 1 ≤ m ∧ m ≤ 16
    · simp only [hrange.1, hrange.2, and_self, if_true] at hn
      obtain rfl : m = n := by simpa using hn
      unfold sleepEval at hd
      cases hpf : pyFloat c.politeness_delay_entry with
      | none => rw [hpf] at hd; exact absurd hd (by simp)
      | some d =>
        rw [hpf] at hd
        by_cases hneg : d.1 < 0
        · simp [hneg] at hd
        · rcases hu with h1 | h1 <;>
          · refine ⟨?_, ?_, ?_, ?_, ?_, ?_, ?_, ?_⟩
            · simp [hr, h1, hpi, hrange.1, hrange.2, hpf, hneg]
            · simp [hr, h1, hpi, hrange.1, hrange.2, hpf, hneg, load_urls_running]
            · simp [hr, h1, hpi, hrange.1, hrange.2, hpf, hneg, load_urls_status]
            · simp [hr, h1, hpi, hrange.1, hrange.2, hpf, hneg, load_urls_queue]
            · simp [hr, h1, hpi, hrange.1, hrange.2, hpf, hneg, load_urls_workers]
            · simp [hr, h1, hpi, hrange.1, hrange.2, hpf, hneg, load_urls_records]
            · intro u hu'
              simp only [start_crawler, hr, h1, hpi, hpf, Bool.false_eq_true,
                if_false, true_or, or_true, not_true_eq_false, if_true]
              simp [hr, h1, hpi, hrange.1, hrange.2, hpf, hneg]
              exact load_urls_visited _ hu'
            · simp [hr, h1, hpi, hrange.1, hrange.2, hpf, hneg, load_urls_restrict]
    · simp [hrange] at hn

theorem workerIter_fields (fetch : String → FetchResult) (entry url : String)
    (c : Crawler) :
    (workerIter fetch entry url c).records =
      c.records ++ [(url, (crawl_page c.restrict_domain fetch url).1.2)] ∧
    (workerIter fetch entry url c).url_queue =
      c.url_queue ++ (crawl_page c.restrict_domain fetch url).1.1.filter
        (fun l => l ∉ addVisited c.visited_urls url) ∧
    (workerIter fetch entry url c).visited_urls = addVisited c.visited_urls url ∧
    (workerIter fetch entry url c).crawler_running = c.crawler_running ∧
    (workerIter fetch entry url c).restrict_domain = c.restrict_domain ∧
    (workerIter fetch entry url c).slept = c.slept ++ [sleepEval entry] ∧
    (workerIter fetch entry url c).logMsgs =
      (c.logMsgs ++ (crawl_page c.restrict_domain fetch url).2) ++ ["Crawled: " ++ url] := by
  unfold workerIter save_url
  simp

theorem workerRun_iter (fetch : String → FetchResult) (entries : ℕ → String)
    (fuel k : ℕ) (c : Crawler) (url : String) (rest : List String)
    (hr : c.crawler_running = true) (hq : c.url_queue = url :: rest)
    (hv : url ∉ c.visited_urls) :
    workerRun fetch entries (fuel + 1) k c =
      workerRun fetch entries fuel (k + 1)
        (workerIter fetch (entries k) url { c with url_queue := rest }) := by
  unfold workerRun
  simp [hr, hq, hv]
  rw [← workerRun.eq_def]

/-! ## Claims -/

/-- **C2, counterexample.** The claim says invoking reset while a crawl
session is running fails with ValidationError and changes nothing.
`clear_storage` has no running-state check: on the concrete running state
`exRunning` it raises nothing, empties the Visited Set and deletes the
storage file — the state does change. -/
theorem clear_storage_while_running_cex :
    exRunning.crawler_running = true ∧
    exRunning.visited_urls ≠ [] ∧
    (clear_storage true exRunning).visited_urls = [] ∧
    (clear_storage true exRunning).storage = none := by
  decide

/-- **C2 (amended).** `clear_storage` (the UI's reset), once the dialog is
confirmed, clears the Visited Set and discards the Persistence Sink's records
(`load_all` returns empty afterward) regardless of whether a session is
running — the method performs no running check and never raises; declining the
dialog changes nothing. -/
theorem clear_storage_spec (c : Crawler) :
    (clear_storage true c).visited_urls = [] ∧
    load_all (clear_storage true c).storage = [] ∧
    (clear_storage true c).crawler_running = c.crawler_running ∧
    clear_storage false c = c := by
  unfold clear_storage load_all
  simp

/-- **C6.** `start_crawler` fails (surfacing a `ValidationError`-style error
box) and leaves the state unchanged — so no workers are spawned, and
`stats().status` stays `"Idle"` when it was `"Idle"` — whenever a session is
already running, the seed lacks an `http(s)` scheme, the thread count is
outside `[1,16]` (or unparseable), or the delay is negative (or unparseable);
when every check passes it sets the running flag, clears and re-seeds the
Frontier Queue with the stripped seed, and spawns exactly `thread_count`
workers. -/
theorem start_crawler_validation (c : Crawler) :
    (c.crawler_running = true →
      start_crawler c = (some .alreadyRunning, c)) ∧
    (¬ validStart c →
      (start_crawler c).1.isSome ∧ (start_crawler c).2 = c ∧
      (start_crawler c).2.workers = c.workers ∧
      (start_crawler c).2.current_status = c.current_status) ∧
    (∀ n, validStart c → threadsEval c.max_threads_entry = some n →
      (start_crawler c).1 = none ∧
      (start_crawler c).2.crawler_running = true ∧
      (start_crawler c).2.current_status = "Running" ∧
      (start_crawler c).2.url_queue = [pyStrip c.start_url_entry] ∧
      (start_crawler c).2.workers = List.replicate n.toNat WPhase.idle) := by
  refine ⟨?_, ?_, ?_⟩
  · intro hr
    unfold start_crawler
    simp [hr]
  · intro h
    obtain ⟨h1, h2⟩ := start_crawler_fail h
    exact ⟨h1, h2, by rw [h2], by rw [h2]⟩
  · intro n hv hn
    obtain ⟨a, b, d, e, f, -, -⟩ := start_crawler_ok hv hn
    exact ⟨a, b, d, e, f⟩

/-- **C8, counterexample.** The claim says the Frontier Queue contents persist
across `stop()` followed by `start()`.  On the concrete state `exRunning`
(pending URL `https://a.com/pending` queued), stopping and then successfully
restarting leaves a queue holding only the seed: the pending URL is gone,
because `start_crawler` clears the queue before re-seeding it. -/
theorem queue_lost_across_restart_cex :
    exRunning.url_queue = ["https://a.com/pending"] ∧
    (start_crawler (stop_crawler exRunning)).1 = none ∧
    (start_crawler (stop_crawler exRunning)).2.url_queue = ["https://a.com"] ∧
    "https://a.com/pending" ∉ (start_crawler (stop_crawler exRunning)).2.url_queue := by
  decide

/-- **C8 (amended).** Across `stop()` followed by a later successful
`start()` (no intervening clear), the Visited Set persists — every URL
visited in the previous session is still visited in the new one (the new
session additionally re-loads stored records into it) — but the Frontier
Queue does not: `start_crawler` clears it and re-seeds it with just the seed
URL, so pending URLs of the old session are dropped. -/
theorem visited_persists_across_restart (c : Crawler) :
    (∀ u ∈ c.visited_urls,
      u ∈ (start_crawler (stop_crawler c)).2.visited_urls) ∧
    ((start_crawler (stop_crawler c)).1 = none →
      (start_crawler (stop_crawler c)).2.url_queue =
        [pyStrip (stop_crawler c).start_url_entry]) := by
  have hvis : (stop_crawler c).visited_urls = c.visited_urls := by
    unfold stop_crawler; split <;> rfl
  constructor
  · intro u hu
    by_cases hv : validStart (stop_crawler c)
    · cases hn : threadsEval (stop_crawler c).max_threads_entry with
      | none =>
        exact absurd hv.2.2.1 (by simp [hn])
      | some n =>
        exact (start_crawler_ok hv hn).2.2.2.2.2.2.1 u (hvis ▸ hu)
    · rw [(start_crawler_fail hv).2, hvis]
      exact hu
  · intro hok
    by_cases hv : validStart (stop_crawler c)
    · cases hn : threadsEval (stop_crawler c).max_threads_entry with
      | none =>
        exact absurd hv.2.2.1 (by simp [hn])
      | some n =>
        exact (start_crawler_ok hv hn).2.2.2.1
    · have := (start_crawler_fail hv).1
      rw [hok] at this
      exact absurd this (by simp)

theorem workerRun_zero (fetch : String → FetchResult) (entries : ℕ → String)
    (k : ℕ) (c : Crawler) : workerRun fetch entries 0 k c = c :=
  rfl

/-- **C7.** A fetched page answering a non-success HTTP status (here 500) is
not an error: `crawl_page` returns `([], 500)`, the worker's CrawlRecord for
that URL carries status 500, and no link extracted from that page is
enqueued (the queue is left drained). -/
theorem status_500_recorded_no_links (fetch : String → FetchResult)
    (entries : ℕ → String) (k : ℕ) (c : Crawler) (url : String)
    (hrefs : List String) (hr : c.crawler_running = true)
    (hq : c.url_queue = [url]) (hv : url ∉ c.visited_urls)
    (hf : fetch url = .ok 500 hrefs) :
    (crawl_page c.restrict_domain fetch url).1 = ([], 500) ∧
    (workerRun fetch entries 1 k c).records = c.records ++ [(url, 500)] ∧
    (workerRun fetch entries 1 k c).url_queue = [] := by
  have hcp : crawl_page c.restrict_domain fetch url = (([], 500), []) := by
    unfold crawl_page
    rw [hf]
    simp
  rw [workerRun_iter fetch entries 0 k c url [] hr hq hv, workerRun_zero]
  refine ⟨by rw [hcp], ?_, ?_⟩
  · rw [(workerIter_fields fetch (entries k) url _).1]
    simp [hcp]
  · rw [(workerIter_fields fetch (entries k) url _).2.1]
    simp [hcp]

/-- **C7, witness.** `status_500_recorded_no_links` at the concrete running
crawler `exQ1` with the all-500 mock fetcher. -/
theorem status_500_recorded_no_links_witness :
    (crawl_page exQ1.restrict_domain fetch500 "https://a.com").1 = ([], 500) ∧
    (workerRun fetch500 entries0 1 0 exQ1).records = [("https://a.com", 500)] ∧
    (workerRun fetch500 entries0 1 0 exQ1).url_queue = [] := by
  have h := status_500_recorded_no_links fetch500 entries0 0 exQ1 "https://a.com"
    ["https://a.com/l1"] (by decide) (by decide) (by decide) (by decide)
  simpa using h

/-- **C9.** Link extraction runs only at status exactly 200: for a response
with any other status `s` (203, 206, 500, ...), `crawl_page` returns
`([], s)`, and a worker iteration on that URL records status `s` while
enqueuing nothing. -/
theorem extraction_only_at_200 (restrict : Bool) (fetch : String → FetchResult)
    (url : String) (s : ℕ) (hrefs : List String)
    (hf : fetch url = .ok s hrefs) (hs : s ≠ 200) :
    (crawl_page restrict fetch url).1 = ([], s) ∧
    (∀ (c : Crawler) (entry : String), c.restrict_domain = restrict →
      (workerIter fetch entry url c).url_queue = c.url_queue ∧
      (workerIter fetch entry url c).records = c.records ++ [(url, s)]) := by
  have hcp : crawl_page restrict fetch url = (([], s), []) := by
    unfold crawl_page
    rw [hf]
    simp [hs]
  refine ⟨by rw [hcp], ?_⟩
  intro c entry hres
  constructor
  · rw [(workerIter_fields fetch entry url c).2.1]
    simp [hres, hcp]
  · rw [(workerIter_fields fetch entry url c).1]
    simp [hres, hcp]

/-- **C9, witness.** `extraction_only_at_200` at status 206 (a success code
other than 200) on the concrete state `ex0`. -/
theorem extraction_only_at_200_witness :
    (crawl_page true fetch206 "https://a.com").1 = ([], 206) ∧
    (workerIter fetch206 "0" "https://a.com" ex0).url_queue = [] ∧
    (workerIter fetch206 "0" "https://a.com" ex0).records = [("https://a.com", 206)] := by
  have h := extraction_only_at_200 true fetch206 "https://a.com" 206
    ["https://a.com/x"] (by decide) (by decide)
  have h2 := h.2 ex0 "0" (by decide)
  exact ⟨h.1, by simpa using h2.1, by simpa using h2.2⟩

/-- **C4.** A transport failure on a fetch is recovered locally: `crawl_page`
returns `([], 0)` and logs the error, the CrawlRecord for that URL has status
0 with no links enqueued, and the worker goes on to process the next frontier
entry (here `url₂`, which also gets its record) instead of terminating. -/
theorem fetch_error_recovered (fetch : String → FetchResult)
    (entries : ℕ → String) (k : ℕ) (c : Crawler) (url₁ url₂ : String)
    (hr : c.crawler_running = true) (hq : c.url_queue = [url₁, url₂])
    (hv1 : url₁ ∉ c.visited_urls) (hv2 : url₂ ∉ c.visited_urls)
    (hne : url₂ ≠ url₁) (hf : fetch url₁ = .err) :
    crawl_page c.restrict_domain fetch url₁ = (([], 0), ["Error crawling " ++ url₁]) ∧
    (workerRun fetch entries 2 k c).records =
      c.records ++ [(url₁, 0), (url₂, (crawl_page c.restrict_domain fetch url₂).1.2)] ∧
    "Error crawling " ++ url₁ ∈ (workerRun fetch entries 2 k c).logMsgs := by
  have hcp : crawl_page c.restrict_domain fetch url₁ = (([], 0), ["Error crawling " ++ url₁]) := by
    unfold crawl_page
    rw [hf]
  have hfields := workerIter_fields fetch (entries k) url₁ { c with url_queue := [url₂] }
  set c₁ := workerIter fetch (entries k) url₁ { c with url_queue := [url₂] } with hc₁
  have hq₁ : c₁.url_queue = [url₂] := by
    rw [hc₁, hfields.2.1]
    simp [hcp]
  have hrun₁ : c₁.crawler_running = true := by
    rw [hc₁, hfields.2.2.2.1]
    exact hr
  have hres₁ : c₁.restrict_domain = c.restrict_domain := by
    rw [hc₁, hfields.2.2.2.2.1]
  have hv₂' : url₂ ∉ c₁.visited_urls := by
    rw [hc₁, hfields.2.2.1]
    simp [addVisited, hv1, hv2, hne]
  have hrec₁ : c₁.records = c.records ++ [(url₁, 0)] := by
    rw [hc₁, hfields.1]
    simp [hcp]
  have hlog₁ : "Error crawling " ++ url₁ ∈ c₁.logMsgs := by
    rw [hc₁, hfields.2.2.2.2.2.2]
    simp [hcp]
  have h1 : workerRun fetch entries 2 k c = workerRun fetch entries 1 (k + 1) c₁ :=
    workerRun_iter fetch entries 1 k c url₁ [url₂] hr hq hv1
  have h2 : workerRun fetch entries 1 (k + 1) c₁ =
      workerIter fetch (entries (k + 1)) url₂ { c₁ with url_queue := [] } := by
    rw [workerRun_iter fetch entries 0 (k + 1) c₁ url₂ [] hrun₁ hq₁ hv₂',
      workerRun_zero]
  have hfields₂ := workerIter_fields fetch (entries (k + 1)) url₂ { c₁ with url_queue := [] }
  refine ⟨hcp, ?_, ?_⟩
  · rw [h1, h2, hfields₂.1]
    simp [hrec₁, hres₁]
  · rw [h1, h2, hfields₂.2.2.2.2.2.2]
    exact List.mem_append_left _ (List.mem_append_left _ hlog₁)

/-- **C4, witness.** `fetch_error_recovered` on the concrete two-URL queue
`exQ2` with the mock fetcher that raises a connection error on the first. -/
theorem fetch_error_recovered_witness :
    crawl_page exQ2.restrict_domain fetchErr "https://a.com/e" =
      (([], 0), ["Error crawling https://a.com/e"]) ∧
    (workerRun fetchErr entries0 2 0 exQ2).records =
      [("https://a.com/e", 0), ("https://a.com/b", 200)] ∧
    "Error crawling https://a.com/e" ∈ (workerRun fetchErr entries0 2 0 exQ2).logMsgs := by
  have h := fetch_error_recovered fetchErr entries0 0 exQ2
    "https://a.com/e" "https://a.com/b" (by decide) (by decide) (by decide)
    (by decide) (by decide) (by decide)
  refine ⟨by simpa using h.1, by simpa using h.2.1, by simpa using h.2.2⟩

/-- **C10.** The politeness delay entry is re-read at every iteration's
`time.sleep(float(...))` line: the `n`-th sleep outcome is `sleepEval` of the
entry text at that moment (`entries n`).  When the current text fails (non-
numeric, or negative so that `time.sleep` raises), the exception is caught by
the worker's handler — the sleep outcome is `none` — and the worker continues
with the next frontier entry (here `url₂`, which still gets fetched and
recorded) using the next read of the entry field. -/
theorem politeness_delay_reread (fetch : String → FetchResult)
    (entries : ℕ → String) (k : ℕ) (c : Crawler) (url₁ url₂ : String)
    (hr : c.crawler_running = true) (hq : c.url_queue = [url₁, url₂])
    (hv1 : url₁ ∉ c.visited_urls) (hv2 : url₂ ∉ c.visited_urls)
    (hne : url₂ ≠ url₁) (hbad : sleepEval (entries k) = none) :
    (workerRun fetch entries 2 k c).slept =
      c.slept ++ [none, sleepEval (entries (k + 1))] ∧
    (workerRun fetch entries 2 k c).records =
      c.records ++ [(url₁, (crawl_page c.restrict_domain fetch url₁).1.2),
        (url₂, (crawl_page c.restrict_domain fetch url₂).1.2)] := by
  have hfields := workerIter_fields fetch (entries k) url₁ { c with url_queue := [url₂] }
  set c₁ := workerIter fetch (entries k) url₁ { c with url_queue := [url₂] } with hc₁
  set L := (crawl_page c.restrict_domain fetch url₁).1.1.filter
    (fun l => l ∉ addVisited c.visited_urls url₁) with hL
  have hq₁ : c₁.url_queue = url₂ :: L := by
    rw [hc₁, hfields.2.1, hL]
    rfl
  have hrun₁ : c₁.crawler_running = true := by
    rw [hc₁, hfields.2.2.2.1]
    exact hr
  have hres₁ : c₁.restrict_domain = c.restrict_domain := by
    rw [hc₁, hfields.2.2.2.2.1]
  have hv₂' : url₂ ∉ c₁.visited_urls := by
    rw [hc₁, hfields.2.2.1]
    simp [addVisited, hv1, hv2, hne]
  have hrec₁ : c₁.records =
      c.records ++ [(url₁, (crawl_page c.restrict_domain fetch url₁).1.2)] := by
    rw [hc₁, hfields.1]
  have hslept₁ : c₁.slept = c.slept ++ [none] := by
    rw [hc₁, hfields.2.2.2.2.2.1, hbad]
  have h1 : workerRun fetch entries 2 k c = workerRun fetch entries 1 (k + 1) c₁ :=
    workerRun_iter fetch entries 1 k c url₁ [url₂] hr hq hv1
  have h2 : workerRun fetch entries 1 (k + 1) c₁ =
      workerIter fetch (entries (k + 1)) url₂ { c₁ with url_queue := L } := by
    rw [workerRun_iter fetch entries 0 (k + 1) c₁ url₂ L hrun₁ hq₁ hv₂',
      workerRun_zero]
  have hfields₂ := workerIter_fields fetch (entries (k + 1)) url₂ { c₁ with url_queue := L }
  constructor
  · rw [h1, h2, hfields₂.2.2.2.2.2.1]
    simp [hslept₁]
  · rw [h1, h2, hfields₂.1]
    simp [hrec₁, hres₁]

/-- **C10, witness.** `politeness_delay_reread` on the concrete two-URL queue
`exQ2` with the entry stream that is non-numeric at the first read and
`"0.5"` at the second: the first sleep raises (caught), the second sleeps
0.5, and both URLs are recorded. -/
theorem politeness_delay_reread_witness :
    (workerRun fetch200 entriesBad 2 0 exQ2).slept = [none, some (5, 1)] ∧
    (workerRun fetch200 entriesBad 2 0 exQ2).records =
      [("https://a.com/e", 200), ("https://a.com/b", 200)] := by
  have h := politeness_delay_reread fetch200 entriesBad 0 exQ2
    "https://a.com/e" "https://a.com/b" (by decide) (by decide) (by decide)
    (by decide) (by decide) (by decide)
  refine ⟨?_, ?_⟩
  · rw [h.1]
    decide
  · rw [h.2]
    decide

/-! ## Worker-pool helper lemmas -/

theorem fetchRecord_fields (fetch : String → FetchResult) (i : ℕ) (url : String)
    (c : Crawler) :
    (fetchRecord fetch i url c).url_queue = c.url_queue ∧
    (fetchRecord fetch i url c).visited_urls = c.visited_urls ∧
    (fetchRecord fetch i url c).crawler_running = c.crawler_running ∧
    (fetchRecord fetch i url c).restrict_domain = c.restrict_domain ∧
    (fetchRecord fetch i url c).records =
      c.records ++ [(url, (crawl_page c.restrict_domain fetch url).1.2)] ∧
    (fetchRecord fetch i url c).workers =
      c.workers.set i (.pushing url (crawl_page c.restrict_domain fetch url).1.1) := by
  unfold fetchRecord save_url
  simp

theorem get?_set_cases {l : List WPhase} {i j : ℕ} {q p : WPhase}
    (h : (l.set i q).get? j = some p) :
    (j = i ∧ p = q) ∨ (j ≠ i ∧ l.get? j = some p) := by
  rcases eq_or_ne j i with rfl | hji
  · rw [List.get?_set_eq] at h
    cases hl : l.get? j with
    | none => rw [hl] at h; simp at h
    | some a =>
      rw [hl] at h
      simp at h
      exact Or.inl ⟨rfl, h.symm⟩
  · rw [List.get?_set_ne _ _ (Ne.symm hji)] at h
    exact Or.inr ⟨hji, h⟩

theorem sum_map_set (g : WPhase → ℕ) {l : List WPhase} {i : ℕ} {p : WPhase}
    (q : WPhase) (h : l.get? i = some p) :
    ((l.set i q).map g).sum + g p = (l.map g).sum + g q := by
  induction l generalizing i with
  | nil => simp at h
  | cons a as ih =>
    cases i with
    | zero =>
      obtain rfl : a = p := by simpa using h
      simp [List.set]
      omega
    | succ n =>
      have hih := ih (by simpa using h)
      simp only [List.set, List.map_cons, List.sum_cons]
      omega

theorem RecInv_of_eq {c c' : Crawler} (i : ℕ) (p : WPhase)
    (hrec : c'.records = c.records) (hvis : c'.visited_urls = c.visited_urls)
    (hw : c'.workers = c.workers.set i p) (hp : ∀ v, p ≠ WPhase.working v)
    (hInv : RecInv c) : RecInv c' := by
  obtain ⟨h1, h2, h3, h4⟩ := hInv
  have hru : recUrls c' = recUrls c := by unfold recUrls; rw [hrec]
  refine ⟨by rw [hru]; exact h1, ?_, ?_, ?_⟩
  · intro u hu
    rw [hvis]
    rw [hru] at hu
    exact h2 u hu
  · intro j u hj
    rw [hw] at hj
    rcases get?_set_cases hj with ⟨-, hpq⟩ | ⟨-, hold⟩
    · exact absurd hpq.symm (hp u)
    · rw [hvis, hru]
      exact h3 j u hold
  · intro i' j u hij hi' hj'
    rw [hw] at hi' hj'
    rcases get?_set_cases hi' with ⟨-, hpq⟩ | ⟨-, hiold⟩
    · exact absurd hpq.symm (hp u)
    · rcases get?_set_cases hj' with ⟨-, hpq⟩ | ⟨-, hjold⟩
      · exact absurd hpq.symm (hp u)
      · exact h4 i' j u hij hiold hjold

theorem RecInv_step {fetch : String → FetchResult} {c c' : Crawler}
    (hstep : Step fetch c c') (hInv : RecInv c) : RecInv c' := by
  obtain ⟨h1, h2, h3, h4⟩ := hInv
  cases hstep with
  | check i _ hw hr =>
    exact RecInv_of_eq (c := c) i .checked rfl rfl rfl (by intro v; simp) ⟨h1, h2, h3, h4⟩
  | exit_flag i _ hw hr =>
    exact RecInv_of_eq (c := c) i .exited rfl rfl rfl (by intro v; simp) ⟨h1, h2, h3, h4⟩
  | exit_empty i _ hw hq =>
    exact RecInv_of_eq (c := c) i .exited rfl rfl rfl (by intro v; simp) ⟨h1, h2, h3, h4⟩
  | pop i _ url rest hw hq =>
    exact RecInv_of_eq (c := c) i (.popped url) rfl rfl rfl (by intro v; simp) ⟨h1, h2, h3, h4⟩
  | skip_visited i _ url hw hv =>
    exact RecInv_of_eq (c := c) i .idle rfl rfl rfl (by intro v; simp) ⟨h1, h2, h3, h4⟩
  | push_links i _ url links hw =>
    exact RecInv_of_eq (c := c) i .sleeping rfl rfl rfl (by intro v; simp) ⟨h1, h2, h3, h4⟩
  | wake i _ hw =>
    exact RecInv_of_eq (c := c) i .idle rfl rfl rfl (by intro v; simp) ⟨h1, h2, h3, h4⟩
  | claim i _ url hw hnv =>
    refine ⟨h1, ?_, ?_, ?_⟩
    · intro u hu
      exact mem_addVisited (h2 u hu)
    · intro j u hj
      rcases get?_set_cases hj with ⟨-, hpq⟩ | ⟨-, hold⟩
      · obtain rfl : u = url := by injection hpq
        exact ⟨self_mem_addVisited _ _, fun hmem => hnv (h2 _ hmem)⟩
      · obtain ⟨hv', hnr⟩ := h3 j u hold
        exact ⟨mem_addVisited hv', hnr⟩
    · intro i' j u hij hi' hj'
      rcases get?_set_cases hi' with ⟨rfl, hpq⟩ | ⟨hne₁, hiold⟩
      · obtain rfl : u = url := by injection hpq
        rcases get?_set_cases hj' with ⟨rfl, -⟩ | ⟨-, hjold⟩
        · exact hij rfl
        · exact hnv ((h3 j u hjold).1)
      · rcases get?_set_cases hj' with ⟨rfl, hpq⟩ | ⟨-, hjold⟩
        · obtain rfl : u = url := by injection hpq
          exact hnv ((h3 i' u hiold).1)
        · exact h4 i' j u hij hiold hjold
  | fetch_record i _ url hw =>
    have hff := fetchRecord_fields fetch i url c
    have hru : recUrls (fetchRecord fetch i url c) = recUrls c ++ [url] := by
      unfold recUrls
      rw [hff.2.2.2.2.1]
      simp
    have hurl := h3 i url hw
    refine ⟨?_, ?_, ?_, ?_⟩
    · rw [hru]
      refine List.nodup_append.2 ⟨h1, List.nodup_singleton _, ?_⟩
      intro a ha hb
      simp only [List.mem_singleton] at hb
      subst hb
      exact hurl.2 ha
    · intro u hu
      rw [hff.2.1]
      rw [hru] at hu
      rcases List.mem_append.mp hu with hu | hu
      · exact h2 u hu
      · simp only [List.mem_singleton] at hu
        subst hu
        exact hurl.1
    · intro j u hj
      rw [hff.2.2.2.2.2] at hj
      rcases get?_set_cases hj with ⟨-, hpq⟩ | ⟨hne, hold⟩
      · exact absurd hpq (by simp)
      · obtain ⟨hv', hnr⟩ := h3 j u hold
        refine ⟨by rw [hff.2.1]; exact hv', ?_⟩
        rw [hru]
        intro hmem
        rcases List.mem_append.mp hmem with hm | hm
        · exact hnr hm
        · simp only [List.mem_singleton] at hm
          subst hm
          exact h4 i j u (Ne.symm hne) hw hold
    · intro i' j u hij hi' hj'
      rw [hff.2.2.2.2.2] at hi' hj'
      rcases get?_set_cases hi' with ⟨-, hpq⟩ | ⟨-, hiold⟩
      · exact absurd hpq (by simp)
      · rcases get?_set_cases hj' with ⟨-, hpq⟩ | ⟨-, hjold⟩
        · exact absurd hpq (by simp)
        · exact h4 i' j u hij hiold hjold

theorem RecInv_reach {fetch : String → FetchResult} {c₀ c : Crawler}
    (h : Reach fetch c₀ c) (h₀ : RecInv c₀) : RecInv c := by
  induction h with
  | refl => exact h₀
  | tail _ hstep ih => exact RecInv_step hstep ih

/-- **C1.** Starting a session and letting the worker pool run: in every
reachable state the sequence of CrawlRecords produced has pairwise-distinct
URLs — the atomic check-and-add on the Visited Set at pop time admits each
URL at most once, so each URL is fetched and recorded at most once per
session. -/
theorem crawl_records_unique (fetch : String → FetchResult) (c c₀ cN : Crawler)
    (hstart : start_crawler c = (none, c₀)) (hreach : Reach fetch c₀ cN) :
    (cN.records.map Prod.fst).Nodup := by
  have hv : validStart c := by
    by_contra hnv
    have h := (start_crawler_fail hnv).1
    rw [hstart] at h
    simp at h
  have hts := hv.2.2.1
  cases hn : threadsEval c.max_threads_entry with
  | none => rw [hn] at hts; simp at hts
  | some n =>
    have hok := start_crawler_ok hv hn
    have h2₀ : (start_crawler c).2 = c₀ := by rw [hstart]
    have hrec₀ : c₀.records = [] := by rw [← h2₀]; exact hok.2.2.2.2.2.1
    have hwk₀ : c₀.workers = List.replicate n.toNat WPhase.idle := by
      rw [← h2₀]; exact hok.2.2.2.2.1
    have hInv₀ : RecInv c₀ := by
      refine ⟨?_, ?_, ?_, ?_⟩
      · simp [recUrls, hrec₀]
      · intro u hu
        simp [recUrls, hrec₀] at hu
      · intro j u hj
        rw [hwk₀] at hj
        rcases List.mem_replicate.mp (List.get?_mem hj) with ⟨-,heq⟩
        exact absurd heq (by simp)
      · intro i j u hij hi hj
        rw [hwk₀] at hi
        rcases List.mem_replicate.mp (List.get?_mem hi) with ⟨-, heq⟩
        exact absurd heq (by simp)
    exact (RecInv_reach hreach hInv₀).1

/-- **C1, witness.** `crawl_records_unique` at the concretely started session
`ex0Started` (reachability by the empty run). -/
theorem crawl_records_unique_witness :
    (ex0Started.records.map Prod.fst).Nodup :=
  crawl_records_unique fetch200 ex0 ex0Started ex0Started (by decide)
    Relation.ReflTransGen.refl

/-! ## Domain restriction (C3) -/

theorem urljoin_absolute {href : String} (h : (schemeSplit href).isSome)
    (url : String) : urljoin url href = href := by
  unfold urljoin
  rw [if_pos h]

/-- Under domain restriction, every link `crawl_page` returns has the netloc
of the fetched page. -/
theorem crawl_page_restrict_netloc {fetch : String → FetchResult}
    {url l : String} (hl : l ∈ (crawl_page true fetch url).1.1) :
    urlNetloc l = urlNetloc url := by
  unfold crawl_page at hl
  cases hf : fetch url with
  | err => rw [hf] at hl; simp at hl
  | ok s hrefs =>
    rw [hf] at hl
    by_cases hs : s = 200
    · subst hs
      simp only [ne_eq, not_true_eq_false, if_true, if_false, ite_false,
        reduceIte] at hl
      obtain ⟨href, -, hcond⟩ := List.mem_filterMap.mp hl
      split at hcond
      · next hcnd =>
        obtain rfl : urljoin url href = l := by injection hcond
        rcases hcnd with ⟨hdom, -⟩
        simpa using hdom
      · exact absurd hcond (by simp)
    · simp [hs] at hl

/-- Without domain restriction, an absolute `http(s)` anchor of a 200 page is
among the links `crawl_page` returns, whatever its host. -/
theorem crawl_page_unrestricted_mem {fetch : String → FetchResult}
    {url href : String} {hrefs : List String}
    (hf : fetch url = .ok 200 hrefs) (hh : href ∈ hrefs)
    (habs : (schemeSplit href).isSome)
    (hsch : urlScheme href = "http" ∨ urlScheme href = "https") :
    href ∈ (crawl_page false fetch url).1.1 := by
  unfold crawl_page
  rw [hf]
  simp only [ne_eq, not_true_eq_false, if_false, ite_false, reduceIte]
  refine List.mem_filterMap.mpr ⟨href, hh, ?_⟩
  rw [urljoin_absolute habs]
  rw [if_pos ?_]
  constructor
  · left
    simp
  · exact hsch

theorem DomInv_step {fetch : String → FetchResult} {host : String}
    {c c' : Crawler} (hstep : Step fetch c c') (hInv : DomInv host c) :
    DomInv host c' := by
  obtain ⟨hres, hq, hw⟩ := hInv
  cases hstep with
  | check i _ hwk hr =>
    refine ⟨hres, hq, ?_⟩
    intro p hp
    rcases List.mem_or_eq_of_mem_set hp with hp | rfl
    · exact hw p hp
    · trivial
  | exit_flag i _ hwk hr =>
    refine ⟨hres, hq, ?_⟩
    intro p hp
    rcases List.mem_or_eq_of_mem_set hp with hp | rfl
    · exact hw p hp
    · trivial
  | exit_empty i _ hwk hq' =>
    refine ⟨hres, hq, ?_⟩
    intro p hp
    rcases List.mem_or_eq_of_mem_set hp with hp | rfl
    · exact hw p hp
    · trivial
  | wake i _ hwk =>
    refine ⟨hres, hq, ?_⟩
    intro p hp
    rcases List.mem_or_eq_of_mem_set hp with hp | rfl
    · exact hw p hp
    · trivial
  | skip_visited i _ url hwk hv =>
    refine ⟨hres, hq, ?_⟩
    intro p hp
    rcases List.mem_or_eq_of_mem_set hp with hp | rfl
    · exact hw p hp
    · trivial
  | pop i _ url rest hwk hq' =>
    refine ⟨hres, ?_, ?_⟩
    · intro u hu
      exact hq u (by rw [hq']; exact List.mem_cons_of_mem _ hu)
    · intro p hp
      rcases List.mem_or_eq_of_mem_set hp with hp | rfl
      · exact hw p hp
      · exact hq url (by rw [hq']; exact List.mem_cons_self _ _)
  | claim i _ url hwk hnv =>
    refine ⟨hres, hq, ?_⟩
    intro p hp
    rcases List.mem_or_eq_of_mem_set hp with hp | rfl
    · exact hw p hp
    · exact hw (WPhase.popped url) (List.get?_mem hwk)
  | fetch_record i _ url hwk =>
    have hff := fetchRecord_fields fetch i url c
    have hpu : urlNetloc url = host := hw _ (List.get?_mem hwk)
    refine ⟨by rw [hff.2.2.2.1]; exact hres, by rw [hff.1]; exact hq, ?_⟩
    intro p hp
    rw [hff.2.2.2.2.2] at hp
    rcases List.mem_or_eq_of_mem_set hp with hp | rfl
    · exact hw p hp
    · refine ⟨hpu, ?_⟩
      intro l hl
      rw [hres] at hl
      exact (crawl_page_restrict_netloc hl).trans hpu
  | push_links i _ url links hwk =>
    have hp := hw _ (List.get?_mem hwk)
    refine ⟨hres, ?_, ?_⟩
    · intro u hu
      rcases List.mem_append.mp hu with h | h
      · exact hq u h
      · exact hp.2 u (List.mem_of_mem_filter h)
    · intro p hp'
      rcases List.mem_or_eq_of_mem_set hp' with h | rfl
      · exact hw p h
      · trivial

theorem DomInv_reach {fetch : String → FetchResult} {host : String}
    {c₀ c : Crawler} (h : Reach fetch c₀ c) (h₀ : DomInv host c₀) :
    DomInv host c := by
  induction h with
  | refl => exact h₀
  | tail _ hstep ih => exact DomInv_step hstep ih

/-- **C3.** With `domain_restricted = true`, every URL in the Frontier Queue
of every reachable state of a started session has the seed's host — the
filter compares each link's host to the currently fetched page's host, and
inductively every held page has the seed's host, so an off-domain URL is
never enqueued.  With `domain_restricted = false`, an absolute `http(s)` link
extracted from a fetched 200 page is kept by `crawl_page` whatever its host,
and the worker's push step enqueues it whenever it is not already visited. -/
theorem domain_restriction_enqueue (fetch : String → FetchResult)
    (c c₀ cN : Crawler) :
    (c.restrict_domain = true → start_crawler c = (none, c₀) →
      Reach fetch c₀ cN →
      ∀ u ∈ cN.url_queue,
        urlNetloc u = urlNetloc (pyStrip c.start_url_entry)) ∧
    (∀ (url href : String) (hrefs : List String),
      fetch url = .ok 200 hrefs → href ∈ hrefs →
      (schemeSplit href).isSome →
      (urlScheme href = "http" ∨ urlScheme href = "https") →
      href ∈ (crawl_page false fetch url).1.1) ∧
    (∀ (d : Crawler) (i : ℕ) (url l : String) (links : List String),
      d.workers.get? i = some (.pushing url links) → l ∈ links →
      l ∉ d.visited_urls →
      ∃ d', Step fetch d d' ∧ l ∈ d'.url_queue) := by
  refine ⟨?_, ?_, ?_⟩
  · intro hres hstart hreach
    have hv : validStart c := by
      by_contra hnv
      have h := (start_crawler_fail hnv).1
      rw [hstart] at h
      simp at h
    have hts := hv.2.2.1
    cases hn : threadsEval c.max_threads_entry with
    | none => rw [hn] at hts; simp at hts
    | some n =>
      have hok := start_crawler_ok hv hn
      have h2₀ : (start_crawler c).2 = c₀ := by rw [hstart]
      have hq₀ : c₀.url_queue = [pyStrip c.start_url_entry] := by
        rw [← h2₀]; exact hok.2.2.2.1
      have hwk₀ : c₀.workers = List.replicate n.toNat WPhase.idle := by
        rw [← h2₀]; exact hok.2.2.2.2.1
      have hres₀ : c₀.restrict_domain = true := by
        rw [← h2₀, hok.2.2.2.2.2.2.2, hres]
      have hInv₀ : DomInv (urlNetloc (pyStrip c.start_url_entry)) c₀ := by
        refine ⟨hres₀, ?_, ?_⟩
        · intro u hu
          rw [hq₀] at hu
          simp only [List.mem_singleton] at hu
          rw [hu]
        · intro p hp
          rw [hwk₀] at hp
          rcases List.mem_replicate.mp hp with ⟨-, rfl⟩
          trivial
      exact (DomInv_reach hreach hInv₀).2.1
  · intro url href hrefs hf hh habs hsch
    exact crawl_page_unrestricted_mem hf hh habs hsch
  · intro d i url l links hwk hl hnv
    refine ⟨_, Step.push_links i d url links hwk, ?_⟩
    refine List.mem_append_right _ ?_
    exact List.mem_filter.mpr ⟨hl, by simpa using hnv⟩

/-- **C3, witness.** The unrestricted half of `domain_restriction_enqueue`
at the concrete state `exPush`: its worker's pending off-domain link
`https://b.com/page` does get enqueued by the push step. -/
theorem domain_restriction_enqueue_witness :
    ∃ d', Step fetch200 exPush d' ∧ "https://b.com/page" ∈ d'.url_queue :=
  (domain_restriction_enqueue fetch200 exPush exPush exPush).2.2 exPush 0
    "https://a.com" "https://b.com/page" ["https://b.com/page"]
    (by decide) (by decide) (by decide)

/-! ## Cooperative stop (C5) -/

theorem step_measure_decreases {fetch : String → FetchResult} {c c' : Crawler}
    (hrun : c.crawler_running = false) (h : Step fetch c c') :
    wMeasure c' < wMeasure c := by
  cases h with
  | check i _ hwk hr => rw [hrun] at hr; exact absurd hr (by simp)
  | exit_flag i _ hwk hr =>
    have hs := sum_map_set phMeasure .exited hwk
    simp only [phMeasure] at hs
    simp only [wMeasure]
    omega
  | exit_empty i _ hwk hq =>
    have hs := sum_map_set phMeasure .exited hwk
    simp only [phMeasure] at hs
    simp only [wMeasure]
    omega
  | pop i _ url rest hwk hq =>
    have hs := sum_map_set phMeasure (.popped url) hwk
    simp only [phMeasure] at hs
    simp only [wMeasure]
    omega
  | skip_visited i _ url hwk hv =>
    have hs := sum_map_set phMeasure .idle hwk
    simp only [phMeasure] at hs
    simp only [wMeasure]
    omega
  | claim i _ url hwk hnv =>
    have hs := sum_map_set phMeasure (.working url) hwk
    simp only [phMeasure] at hs
    simp only [wMeasure]
    omega
  | fetch_record i _ url hwk =>
    have hs := sum_map_set phMeasure
      (.pushing url (crawl_page c.restrict_domain fetch url).1.1) hwk
    simp only [phMeasure] at hs
    simp only [wMeasure, fetchRecord, save_url]
    omega
  | push_links i _ url links hwk =>
    have hs := sum_map_set phMeasure .sleeping hwk
    simp only [phMeasure] at hs
    simp only [wMeasure]
    omega
  | wake i _ hwk =>
    have hs := sum_map_set phMeasure .idle hwk
    simp only [phMeasure] at hs
    simp only [wMeasure]
    omega

theorem step_records_bound {fetch : String → FetchResult} {c c' : Crawler}
    (hrun : c.crawler_running = false) (h : Step fetch c c') :
    c'.records.length + pendingCount c' ≤ c.records.length + pendingCount c := by
  cases h with
  | check i _ hwk hr => rw [hrun] at hr; exact absurd hr (by simp)
  | exit_flag i _ hwk hr =>
    have hs := sum_map_set pendWeight .exited hwk
    simp only [pendWeight] at hs
    simp only [pendingCount]
    omega
  | exit_empty i _ hwk hq =>
    have hs := sum_map_set pendWeight .exited hwk
    simp only [pendWeight] at hs
    simp only [pendingCount]
    omega
  | pop i _ url rest hwk hq =>
    have hs := sum_map_set pendWeight (.popped url) hwk
    simp only [pendWeight] at hs
    simp only [pendingCount]
    omega
  | skip_visited i _ url hwk hv =>
    have hs := sum_map_set pendWeight .idle hwk
    simp only [pendWeight] at hs
    simp only [pendingCount]
    omega
  | claim i _ url hwk hnv =>
    have hs := sum_map_set pendWeight (.working url) hwk
    simp only [pendWeight] at hs
    simp only [pendingCount]
    omega
  | fetch_record i _ url hwk =>
    have hs := sum_map_set pendWeight
      (.pushing url (crawl_page c.restrict_domain fetch url).1.1) hwk
    simp only [pendWeight] at hs
    have hff := fetchRecord_fields fetch i url c
    simp only [pendingCount]
    rw [hff.2.2.2.2.1, hff.2.2.2.2.2]
    simp only [List.length_append, List.length_cons, List.length_nil]
    omega
  | push_links i _ url links hwk =>
    have hs := sum_map_set pendWeight .sleeping hwk
    simp only [pendWeight] at hs
    simp only [pendingCount]
    omega
  | wake i _ hwk =>
    have hs := sum_map_set pendWeight .idle hwk
    simp only [pendWeight] at hs
    simp only [pendingCount]
    omega

theorem step_idle_stays_or_exits {fetch : String → FetchResult}
    {c c' : Crawler} {i : ℕ} (hrun : c.crawler_running = false)
    (hidle : c.workers.get? i = some .idle) (h : Step fetch c c') :
    c'.workers.get? i = some .idle ∨ c'.workers.get? i = some .exited := by
  have hlen : i < c.workers.length := (List.get?_eq_some.mp hidle).1
  cases h with
  | check j _ hwk hr => rw [hrun] at hr; exact absurd hr (by simp)
  | exit_flag j _ hwk hr =>
    rcases eq_or_ne i j with rfl | hne
    · right
      simpa using List.get?_set_eq_of_lt WPhase.exited hlen
    · left
      rw [List.get?_set_ne _ _ (Ne.symm hne)] at *
      exact hidle
  | exit_empty j _ hwk hq =>
    rcases eq_or_ne i j with rfl | hne
    · rw [hidle] at hwk; exact absurd hwk (by simp)
    · left
      rw [List.get?_set_ne _ _ (Ne.symm hne)]
      exact hidle
  | pop j _ url rest hwk hq =>
    rcases eq_or_ne i j with rfl | hne
    · rw [hidle] at hwk; exact absurd hwk (by simp)
    · left
      rw [List.get?_set_ne _ _ (Ne.symm hne)]
      exact hidle
  | skip_visited j _ url hwk hv =>
    rcases eq_or_ne i j with rfl | hne
    · rw [hidle] at hwk; exact absurd hwk (by simp)
    · left
      rw [List.get?_set_ne _ _ (Ne.symm hne)]
      exact hidle
  | claim j _ url hwk hnv =>
    rcases eq_or_ne i j with rfl | hne
    · rw [hidle] at hwk; exact absurd hwk (by simp)
    · left
      rw [List.get?_set_ne _ _ (Ne.symm hne)]
      exact hidle
  | fetch_record j _ url hwk =>
    have hff := fetchRecord_fields fetch j url c
    rw [hff.2.2.2.2.2]
    rcases eq_or_ne i j with rfl | hne
    · rw [hidle] at hwk; exact absurd hwk (by simp)
    · left
      rw [List.get?_set_ne _ _ (Ne.symm hne)]
      exact hidle
  | push_links j _ url links hwk =>
    rcases eq_or_ne i j with rfl | hne
    · rw [hidle] at hwk; exact absurd hwk (by simp)
    · left
      rw [List.get?_set_ne _ _ (Ne.symm hne)]
      exact hidle
  | wake j _ hwk =>
    rcases eq_or_ne i j with rfl | hne
    · rw [hidle] at hwk; exact absurd hwk (by simp)
    · left
      rw [List.get?_set_ne _ _ (Ne.symm hne)]
      exact hidle

theorem step_queue_stable {fetch : String → FetchResult} {c c' : Crawler}
    (hrun : c.crawler_running = false)
    (hnchk : ∀ j, c.workers.get? j ≠ some .checked) (h : Step fetch c c') :
    c.url_queue.length ≤ c'.url_queue.length ∧
    (∀ j, c'.workers.get? j ≠ some .checked) := by
  cases h with
  | check i _ hwk hr => rw [hrun] at hr; exact absurd hr (by simp)
  | exit_empty i _ hwk hq => exact absurd hwk (hnchk i)
  | pop i _ url rest hwk hq => exact absurd hwk (hnchk i)
  | exit_flag i _ hwk hr =>
    refine ⟨le_refl _, ?_⟩
    intro j hj
    rcases get?_set_cases hj with ⟨-, hpq⟩ | ⟨-, hold⟩
    · exact absurd hpq (by simp)
    · exact hnchk j hold
  | skip_visited i _ url hwk hv =>
    refine ⟨le_refl _, ?_⟩
    intro j hj
    rcases get?_set_cases hj with ⟨-, hpq⟩ | ⟨-, hold⟩
    · exact absurd hpq (by simp)
    · exact hnchk j hold
  | claim i _ url hwk hnv =>
    refine ⟨le_refl _, ?_⟩
    intro j hj
    rcases get?_set_cases hj with ⟨-, hpq⟩ | ⟨-, hold⟩
    · exact absurd hpq (by simp)
    · exact hnchk j hold
  | fetch_record i _ url hwk =>
    have hff := fetchRecord_fields fetch i url c
    refine ⟨by rw [hff.1], ?_⟩
    intro j hj
    rw [hff.2.2.2.2.2] at hj
    rcases get?_set_cases hj with ⟨-, hpq⟩ | ⟨-, hold⟩
    · exact absurd hpq (by simp)
    · exact hnchk j hold
  | push_links i _ url links hwk =>
    refine ⟨by simp, ?_⟩
    intro j hj
    rcases get?_set_cases hj with ⟨-, hpq⟩ | ⟨-, hold⟩
    · exact absurd hpq (by simp)
    · exact hnchk j hold
  | wake i _ hwk =>
    refine ⟨le_refl _, ?_⟩
    intro j hj
    rcases get?_set_cases hj with ⟨-, hpq⟩ | ⟨-, hold⟩
    · exact absurd hpq (by simp)
    · exact hnchk j hold

theorem no_step_of_all_exited {fetch : String → FetchResult} {c c' : Crawler}
    (hex : ∀ p ∈ c.workers, p = .exited) (h : Step fetch c c') : False := by
  cases h with
  | check i _ hwk hr => exact absurd (hex _ (List.get?_mem hwk)) (by simp)
  | exit_flag i _ hwk hr => exact absurd (hex _ (List.get?_mem hwk)) (by simp)
  | exit_empty i _ hwk hq => exact absurd (hex _ (List.get?_mem hwk)) (by simp)
  | pop i _ url rest hwk hq => exact absurd (hex _ (List.get?_mem hwk)) (by simp)
  | skip_visited i _ url hwk hv => exact absurd (hex _ (List.get?_mem hwk)) (by simp)
  | claim i _ url hwk hnv => exact absurd (hex _ (List.get?_mem hwk)) (by simp)
  | fetch_record i _ url hwk => exact absurd (hex _ (List.get?_mem hwk)) (by simp)
  | push_links i _ url links hwk => exact absurd (hex _ (List.get?_mem hwk)) (by simp)
  | wake i _ hwk => exact absurd (hex _ (List.get?_mem hwk)) (by simp)

/-- **C5.** `stop_crawler` is idempotent and merely clears the running flag;
stopping is cooperative: in a stopped pool every step strictly decreases the
residual-work measure (so activity ceases within a bounded window — each
worker at most finishes its in-flight URL), record emission is bounded by the
in-flight workers (`pendingCount`) and stops with them, an idle worker can
only exit (it observes the cleared flag at its next loop check and never pops
again), once no worker is mid-pop the queue size never decreases again, and a
fully exited pool admits no step at all — no new CrawlRecords afterwards. -/
theorem stop_crawler_cooperative (fetch : String → FetchResult)
    (c c' : Crawler) (i : ℕ) :
    stop_crawler (stop_crawler c) = stop_crawler c ∧
    (stop_crawler c).crawler_running = false ∧
    (c.crawler_running = false → Step fetch c c' →
      wMeasure c' < wMeasure c) ∧
    (c.crawler_running = false → Step fetch c c' →
      c'.records.length + pendingCount c' ≤ c.records.length + pendingCount c) ∧
    (c.crawler_running = false → c.workers.get? i = some .idle →
      Step fetch c c' →
      c'.workers.get? i = some .idle ∨ c'.workers.get? i = some .exited) ∧
    (c.crawler_running = false → (∀ j, c.workers.get? j ≠ some .checked) →
      Step fetch c c' →
      c.url_queue.length ≤ c'.url_queue.length ∧
      (∀ j, c'.workers.get? j ≠ some .checked)) ∧
    ((∀ p ∈ c.workers, p = .exited) → ¬ Step fetch c c') := by
  refine ⟨?_, ?_, ?_, ?_, ?_, ?_, ?_⟩
  · unfold stop_crawler
    by_cases h : c.crawler_running <;> simp [h]
  · unfold stop_crawler
    by_cases h : c.crawler_running <;> simp [h]
  · exact fun hrun h => step_measure_decreases hrun h
  · exact fun hrun h => step_records_bound hrun h
  · exact fun hrun hidle h => step_idle_stays_or_exits hrun hidle h
  · exact fun hrun hnchk h => step_queue_stable hrun hnchk h
  · exact fun hex h => no_step_of_all_exited hex h

end SpiderBot
